import Mathlib

/-!
Verification of the trajectory buffer, GAE-Lambda advantage computation and
training-loop state machine of a Vanilla Policy Gradient implementation
(file algos/vpg.py).  Real-number quantities (rewards, values, advantages,
log-probabilities) are embedded as rationals; buffer indices as naturals;
numpy arrays as Lean lists of the fixed buffer capacity.
-/

/-! ## Definitions -/

/-- Filter with one pole, coefficients b = [1], a = [1, -c]:
y[n] = x[n] + c * y[n-1], carrying the previous output (initial value 0).
This is what scipy.signal.lfilter([1], [1, -discount], ...) computes. -/
def lfilter1 (c : ℚ) : ℚ → List ℚ → List ℚ
  | _, [] => []
  | prev, x :: xs =>
    let y := x + c * prev
    y :: lfilter1 c y xs

/-- Function discount_cumsum(x, discount) from algos/vpg.py:
scipy.signal.lfilter([1], [1, -discount], x[::-1], axis=0)[::-1], i.e. the
one-pole filter applied to the reversed vector, reversed back. -/
def discount_cumsum (x : List ℚ) (discount : ℚ) : List ℚ :=
  (lfilter1 discount 0 x.reverse).reverse

/-- State of VPGBuffer from algos/vpg.py.  The seven numpy arrays become
lists of length max_size (numpy preallocates them as zeros); observations
and actions keep abstract types O, A. -/
structure VPGBuffer (O A : Type) where
  obs_buf : List O
  act_buf : List A
  adv_buf : List ℚ
  rew_buf : List ℚ
  ret_buf : List ℚ
  val_buf : List ℚ
  logp_buf : List ℚ
  gamma : ℚ
  lam : ℚ
  ptr : ℕ
  path_start_idx : ℕ
  max_size : ℕ
deriving DecidableEq

/-- Constructor of VPGBuffer: arrays of zeros of length size,
ptr = path_start_idx = 0, max_size = size.  Here o0 and a0 stand for the
zero observation / zero action that np.zeros fills the slots with. -/
def VPGBuffer.init (O A : Type) (size : ℕ) (gamma lam : ℚ) (o0 : O) (a0 : A) :
    VPGBuffer O A :=
  { obs_buf := List.replicate size o0
    act_buf := List.replicate size a0
    adv_buf := List.replicate size 0
    rew_buf := List.replicate size 0
    ret_buf := List.replicate size 0
    val_buf := List.replicate size 0
    logp_buf := List.replicate size 0
    gamma := gamma
    lam := lam
    ptr := 0
    path_start_idx := 0
    max_size := size }

/-- Method VPGBuffer.store: requires ptr < max_size (the assert, whose
failure is the BufferFull contract violation, modelled as none), writes one
transition at index ptr and increments ptr. -/
def VPGBuffer.store {O A : Type} (b : VPGBuffer O A) (obs : O) (act : A)
    (rew val logp : ℚ) : Option (VPGBuffer O A) :=
  if b.ptr < b.max_size then
    some { b with
      obs_buf := b.obs_buf.set b.ptr obs
      act_buf := b.act_buf.set b.ptr act
      rew_buf := b.rew_buf.set b.ptr rew
      val_buf := b.val_buf.set b.ptr val
      logp_buf := b.logp_buf.set b.ptr logp
      ptr := b.ptr + 1 }
  else none

/-- Numpy slice read buf[lo:hi]. -/
def sliceRead (buf : List ℚ) (lo hi : ℕ) : List ℚ :=
  (buf.drop lo).take (hi - lo)

/-- Numpy slice assignment buf[lo : lo + len vals] = vals. -/
def sliceAssign (buf : List ℚ) (lo : ℕ) (vals : List ℚ) : List ℚ :=
  buf.take lo ++ vals ++ buf.drop (lo + vals.length)

/-- Method VPGBuffer.finish_path(last_val): append last_val to the rewards
and to the value estimates of the open segment [path_start_idx, ptr), form
the TD residuals deltas = rews[:-1] + gamma * vals[1:] - vals[:-1], write
discount_cumsum(deltas, gamma * lam) into the advantage slots and
discount_cumsum(rews, gamma)[:-1] into the return slots of the segment,
then advance path_start_idx to ptr. -/
def VPGBuffer.finish_path {O A : Type} (b : VPGBuffer O A) (last_val : ℚ) :
    VPGBuffer O A :=
  let rews := sliceRead b.rew_buf b.path_start_idx b.ptr ++ [last_val]
  let vals := sliceRead b.val_buf b.path_start_idx b.ptr ++ [last_val]
  let deltas := List.zipWith (fun r vv => r + b.gamma * vv.1 - vv.2)
    rews.dropLast ((vals.drop 1).zip vals.dropLast)
  { b with
    adv_buf := sliceAssign b.adv_buf b.path_start_idx
      (discount_cumsum deltas (b.gamma * b.lam))
    ret_buf := sliceAssign b.ret_buf b.path_start_idx
      (discount_cumsum rews b.gamma).dropLast
    path_start_idx := b.ptr }

/-- Arithmetic mean of a list of rationals (0 on the empty list, as 0/0 = 0
in ℚ). -/
def mean (xs : List ℚ) : ℚ := xs.sum / xs.length

/-- Population variance of a list of rationals. -/
def varianceOf (xs : List ℚ) : ℚ := mean (xs.map (fun x => (x - mean xs) ^ 2))

/-- Modelled from the spec: mpi_statistics_scalar (from utils/mpi_tools,
which is not among the sources) returns the mean and standard deviation of
an array aggregated across all parallel workers, i.e. the statistics of the
concatenation of the arrays of every worker, with no epsilon and no guard.
Since the exact square root leaves ℚ, the standard deviation it returns is
represented by a number s pinned down by this predicate: nonnegative with
square equal to the aggregated variance; the aggregated mean is the mean
of the concatenation. -/
def mpiStdSpec (global : List ℚ) (s : ℚ) : Prop :=
  0 ≤ s ∧ s ^ 2 = varianceOf global

/-- Method VPGBuffer.get: requires ptr == max_size (the assert, whose
failure is the BufferNotFull contract violation, modelled as none), resets
ptr and path_start_idx to 0, replaces the advantage array by
(adv_buf - adv_mean) / adv_std, and returns the five arrays.  The
cross-worker statistics adv_mean and adv_std are produced by the modelled
mpi_statistics_scalar (see mpiStdSpec) and enter as arguments. -/
def VPGBuffer.get {O A : Type} (b : VPGBuffer O A) (adv_mean adv_std : ℚ) :
    Option ((List O × List A × List ℚ × List ℚ × List ℚ) × VPGBuffer O A) :=
  if b.ptr = b.max_size then
    let adv := b.adv_buf.map (fun x => (x - adv_mean) / adv_std)
    some ((b.obs_buf, b.act_buf, adv, b.ret_buf, b.logp_buf),
      { b with ptr := 0, path_start_idx := 0, adv_buf := adv })
  else none

/-- Advantage array returned by a successful get ([] if get fails). -/
def getAdv {O A : Type} (b : VPGBuffer O A) (adv_mean adv_std : ℚ) : List ℚ :=
  match b.get adv_mean adv_std with
  | some ((_, _, adv, _, _), _) => adv
  | none => []

/-- Iterated store: n consecutive store calls with the same transition. -/
def storeN {O A : Type} (b : VPGBuffer O A) (obs : O) (act : A)
    (rew val logp : ℚ) : ℕ → Option (VPGBuffer O A)
  | 0 => some b
  | n + 1 => (b.store obs act rew val logp).bind
      (fun b2 => storeN b2 obs act rew val logp n)

/-- Invariant of the buffer indices:
0 ≤ path_start_idx ≤ ptr ≤ max_size (the first inequality holds by the ℕ
embedding and is carried explicitly to mirror the stated chain). -/
def bufInv {O A : Type} (b : VPGBuffer O A) : Prop :=
  0 ≤ b.path_start_idx ∧ b.path_start_idx ≤ b.ptr ∧ b.ptr ≤ b.max_size

/-! ## Training loop (the collection loop of vpg)

The inner loop for t in range(local_steps_per_epoch) of vpg drives the
environment and the buffer.  The environment is a black box
step : O -> A -> O x reward x done with a fixed reset observation (gym
state folded into the observation); the actor-critic is a black box
O -> action x log-prob x value (deterministic per seed).  One loop
iteration is projected onto the record of its buffer/environment
interactions: the arguments of the buf.store call, the reward and done
flag returned by env.step, and the last_val argument of buf.finish_path
when a path is closed in that iteration. -/

structure Env (O A : Type) where
  reset : O
  step : O → A → O × ℚ × Bool

/-- Record of the interactions of one iteration of the collection loop. -/
structure IterRec (O A : Type) where
  storeObs : O
  storeAct : A
  storeRew : ℚ
  storeVal : ℚ
  storeLogp : ℚ
  stepRew : ℚ
  stepDone : Bool
  finishArg : Option ℚ
deriving DecidableEq

/-- One iteration of the collection loop at step index t (with
L = local_steps_per_epoch), from loop state (o, r, d, ep_len): evaluate
the actor-critic on o, store (o, a, r, v_t, logp_t), step the environment,
and on terminal = d or ep_len == max_ep_len, or on epoch cutoff
t == L - 1, call finish_path(r if d else v_t) and reset (o, r, d, ep_len)
to (env.reset, 0, false, 0).  Returns the iteration record and the next
loop state.  The done flag carried in the state is dead in the body,
exactly as in the source: env.step reassigns it before any use. -/
def loopIter {O A : Type} (env : Env O A) (ac : O → A × ℚ × ℚ)
    (max_ep_len L t : ℕ) (o : O) (r : ℚ) (_d : Bool) (ep_len : ℕ) :
    IterRec O A × (O × ℚ × Bool × ℕ) :=
  let alv := ac o
  let a := alv.1
  let logp_t := alv.2.1
  let v_t := alv.2.2
  let srd := env.step o a
  let o2 := srd.1
  let r2 := srd.2.1
  let d2 := srd.2.2
  let ep_len2 := ep_len + 1
  let terminal := d2 || decide (ep_len2 = max_ep_len)
  if terminal || decide (t = L - 1) then
    let last_val := if d2 then r2 else v_t
    (⟨o, a, r, v_t, logp_t, r2, d2, some last_val⟩, (env.reset, 0, false, 0))
  else
    (⟨o, a, r, v_t, logp_t, r2, d2, none⟩, (o2, r2, d2, ep_len2))

/-- Collection loop: n remaining iterations starting at step index t,
producing the list of iteration records.  One epoch of the source is
epochLoop env ac max_ep_len L L 0 env.reset 0 false 0. -/
def epochLoop {O A : Type} (env : Env O A) (ac : O → A × ℚ × ℚ)
    (max_ep_len L : ℕ) : ℕ → ℕ → O → ℚ → Bool → ℕ → List (IterRec O A)
  | 0, _, _, _, _, _ => []
  | n + 1, t, o, r, d, ep_len =>
    let step := loopIter env ac max_ep_len L t o r d ep_len
    step.1 :: epochLoop env ac max_ep_len L n (t + 1)
      step.2.1 step.2.2.1 step.2.2.2.1 step.2.2.2.2

/-- Reward bookkeeping discipline of the collection loop, as a predicate on
iteration records.  Carrying the reward pending that the next store must
record (the environment reward for the previous action, 0 right after a
reset), every iteration stores exactly pending; an iteration that closes a
path on a true terminal passes the fresh environment reward to
finish_path; the next pending reward is 0 after any path close, otherwise
the fresh environment reward. -/
def lagOk {O A : Type} : ℚ → List (IterRec O A) → Prop
  | _, [] => True
  | pending, g :: rest =>
    g.storeRew = pending ∧
      match g.finishArg with
      | none => lagOk g.stepRew rest
      | some lv => (g.stepDone = true → lv = g.stepRew) ∧ lagOk 0 rest

/-! ### Concrete inputs used by counterexamples and witnesses -/

/-- Environment for claim C1: every step terminates with reward 5. -/
def c1env : Env ℚ ℚ := { reset := 0, step := fun o _a => (o + 1, 5, true) }

/-- Actor-critic for claim C1: action 0, log-prob 0, value estimate 7. -/
def c1ac : ℚ → ℚ × ℚ × ℚ := fun _o => (0, 0, 7)

/-- Capacity-3 buffer holding one open segment of rewards [1, 1, 1] with
gamma = 1, for the claim C2 witness. -/
def c2buf : VPGBuffer ℚ ℚ :=
  { obs_buf := [0, 0, 0], act_buf := [0, 0, 0], adv_buf := [0, 0, 0]
    rew_buf := [1, 1, 1], ret_buf := [0, 0, 0], val_buf := [0, 0, 0]
    logp_buf := [0, 0, 0], gamma := 1, lam := 1
    ptr := 3, path_start_idx := 0, max_size := 3 }

/-- Degenerate epoch for claim C4: capacity-1 buffer, one store with reward
0 and value 0, then finish_path(0); the single advantage is 0, so the
cross-worker variance is 0. -/
def c4store : Option (VPGBuffer ℚ ℚ) :=
  (VPGBuffer.init ℚ ℚ 1 (99 / 100) (95 / 100) 0 0).store 0 0 0 0 0

/-- Buffer state of the degenerate claim C4 epoch after finish_path(0). -/
def c4buf : VPGBuffer ℚ ℚ :=
  (c4store.getD (VPGBuffer.init ℚ ℚ 1 (99 / 100) (95 / 100) 0 0)).finish_path 0

/-- Full capacity-2 buffer with advantages [1, -1] for the claim C6
witness: aggregated mean 0, variance 1, standard deviation 1. -/
def c6buf : VPGBuffer ℚ ℚ :=
  { obs_buf := [0, 0], act_buf := [0, 0], adv_buf := [1, -1]
    rew_buf := [0, 0], ret_buf := [0, 0], val_buf := [0, 0]
    logp_buf := [0, 0], gamma := 1, lam := 1
    ptr := 2, path_start_idx := 2, max_size := 2 }

/-- Full capacity-1 buffer for the claim C8 witness. -/
def c8buf : VPGBuffer ℚ ℚ :=
  { obs_buf := [0], act_buf := [0], adv_buf := [0]
    rew_buf := [0], ret_buf := [0], val_buf := [0]
    logp_buf := [0], gamma := 1, lam := 1
    ptr := 1, path_start_idx := 1, max_size := 1 }

/-- Buffer state after get on c8buf. -/
def c8after : VPGBuffer ℚ ℚ :=
  { obs_buf := [0], act_buf := [0], adv_buf := [0]
    rew_buf := [0], ret_buf := [0], val_buf := [0]
    logp_buf := [0], gamma := 1, lam := 1
    ptr := 0, path_start_idx := 0, max_size := 1 }

/-- Arrays returned by get on c8buf. -/
def c8out : List ℚ × List ℚ × List ℚ × List ℚ × List ℚ :=
  ([0], [0], [0], [0], [0])

/-- Buffer with empty open segment (path_start_idx = ptr) for the claim C9
witness. -/
def c9buf : VPGBuffer ℚ ℚ :=
  { obs_buf := [0, 0], act_buf := [0, 0], adv_buf := [4, 4]
    rew_buf := [2, 2], ret_buf := [3, 3], val_buf := [1, 1]
    logp_buf := [0, 0], gamma := 1, lam := 1
    ptr := 1, path_start_idx := 1, max_size := 2 }

/-! ## Theorems: discounted cumulative sum -/

theorem lfilter1_length (c : ℚ) (p : ℚ) (l : List ℚ) :
    (lfilter1 c p l).length = l.length := by
  induction l generalizing p with
  | nil => rfl
  | cons x xs ih => simp [lfilter1, ih]

theorem discount_cumsum_length (x : List ℚ) (d : ℚ) :
    (discount_cumsum x d).length = x.length := by
  simp [discount_cumsum, lfilter1_length]

theorem lfilter1_append_last (c p : ℚ) (l : List ℚ) (x : ℚ) :
    lfilter1 c p (l ++ [x]) =
      lfilter1 c p l ++ [x + c * (lfilter1 c p l).getLastD p] := by
  induction l generalizing p with
  | nil => simp [lfilter1]
  | cons a l ih =>
    simp only [List.cons_append, lfilter1]
    rw [List.getLastD_cons]
    simp only [List.append_eq]
    rw [ih]

theorem discount_cumsum_nil (d : ℚ) : discount_cumsum [] d = [] := rfl

theorem discount_cumsum_singleton (a d : ℚ) : discount_cumsum [a] d = [a] := by
  simp [discount_cumsum, lfilter1]

/-- Unfolding law: the head of the result is the head of the input plus the
discount times the head of the result on the tail. -/
theorem discount_cumsum_cons (x : ℚ) (xs : List ℚ) (d : ℚ) :
    discount_cumsum (x :: xs) d =
      (x + d * (discount_cumsum xs d).headD 0) :: discount_cumsum xs d := by
  have h := lfilter1_append_last d 0 xs.reverse x
  simp only [discount_cumsum, List.reverse_cons, h, List.reverse_append]
  simp [List.headD_eq_head?, List.head?_reverse, List.getLastD_eq_getLast?]

theorem discount_cumsum_last (x : List ℚ) (d : ℚ) (hx : x ≠ []) :
    (discount_cumsum x d).getD (x.length - 1) 0 = x.getD (x.length - 1) 0 := by
  induction x with
  | nil => exact absurd rfl hx
  | cons a xs ih =>
    cases xs with
    | nil => simp [discount_cumsum_singleton]
    | cons b ys =>
      have hne : (b :: ys : List ℚ) ≠ [] := by simp
      rw [discount_cumsum_cons]
      have h1 : ((a :: b :: ys : List ℚ).length - 1) = ((b :: ys : List ℚ).length - 1) + 1 := by
        simp
      rw [h1, List.getD_cons_succ, List.getD_cons_succ]
      exact ih hne

/-- Recurrence law y[i] = x[i] + d * y[i+1] for every non-final index. -/
theorem discount_cumsum_recurrence (x : List ℚ) (d : ℚ) (i : ℕ) (hi : i + 1 < x.length) :
    (discount_cumsum x d).getD i 0 =
      x.getD i 0 + d * (discount_cumsum x d).getD (i + 1) 0 := by
  induction x generalizing i with
  | nil => simp at hi
  | cons a xs ih =>
    rw [discount_cumsum_cons]
    cases i with
    | zero =>
      have hxs : xs ≠ [] := by
        cases xs with
        | nil => simp at hi
        | cons b ys => simp
      have : (discount_cumsum xs d).headD 0 = (discount_cumsum xs d).getD 0 0 := by
        cases hdc : discount_cumsum xs d with
        | nil =>
          have := discount_cumsum_length xs d
          rw [hdc] at this
          cases xs with
          | nil => exact absurd rfl hxs
          | cons b ys => simp at this
        | cons z zs => simp
      rw [List.getD_cons_zero, List.getD_cons_succ, List.getD_cons_zero, this]
    | succ j =>
      have hj : j + 1 < xs.length := by simpa using hi
      simp only [List.getD_cons_succ]
      exact ih j hj

/-! ## Claim C3 -/

/-- C3: for every discount factor gamma in (0,1] and every input sequence
x of length N, discount_cumsum(x, gamma) has length N, satisfies
y[N-1] = x[N-1] and y[i] = x[i] + gamma * y[i+1] for all i < N-1, returns
[x0] for N = 1 and [] for N = 0. -/
theorem claim_C3_discount_cumsum_law (γ : ℚ) (hγ : 0 < γ ∧ γ ≤ 1) (x : List ℚ) :
    (discount_cumsum x γ).length = x.length ∧
    (∀ i, i + 1 < x.length →
      (discount_cumsum x γ).getD i 0 =
        x.getD i 0 + γ * (discount_cumsum x γ).getD (i + 1) 0) ∧
    (x ≠ [] →
      (discount_cumsum x γ).getD (x.length - 1) 0 = x.getD (x.length - 1) 0) ∧
    (∀ a : ℚ, discount_cumsum [a] γ = [a]) ∧
    discount_cumsum ([] : List ℚ) γ = [] :=
  ⟨discount_cumsum_length x γ,
   fun i hi => discount_cumsum_recurrence x γ i hi,
   fun hx => discount_cumsum_last x γ hx,
   fun a => discount_cumsum_singleton a γ,
   discount_cumsum_nil γ⟩

/-- Witness for C3 at gamma = 1, x = [1, 2]. -/
theorem claim_C3_witness :
    ((0:ℚ) < 1 ∧ (1:ℚ) ≤ 1) ∧
    (discount_cumsum [(1:ℚ), 2] 1).length = ([(1:ℚ), 2]).length ∧
    (discount_cumsum [(1:ℚ), 2] 1).getD 0 0 =
      ([(1:ℚ), 2]).getD 0 0 + 1 * (discount_cumsum [(1:ℚ), 2] 1).getD 1 0 := by
  have h := claim_C3_discount_cumsum_law 1 (by norm_num) [(1:ℚ), 2]
  exact ⟨by norm_num, h.1, h.2.1 0 (by norm_num)⟩

/-! ## Claim C9 -/

/-- C9: finish_path on an empty segment (path_start_idx = ptr) is a no-op:
no advantage or return slot is written and the buffer is unchanged (the
path marker is reassigned to its already-equal value). -/
theorem claim_C9_finish_path_empty_noop {O A : Type} (b : VPGBuffer O A) (lv : ℚ)
    (h : b.path_start_idx = b.ptr) : b.finish_path lv = b := by
  obtain ⟨ob, ab, adv, rew, ret, val, lp, γ, lam, p, psi, m⟩ := b
  have h2 : psi = p := h
  subst h2
  simp [VPGBuffer.finish_path, sliceRead, sliceAssign, discount_cumsum_singleton,
    Nat.sub_self, List.dropLast_single, discount_cumsum_nil, List.take_append_drop]

/-- Witness for C9 on a concrete buffer with path_start_idx = ptr = 1. -/
theorem claim_C9_witness :
    c9buf.path_start_idx = c9buf.ptr ∧ c9buf.finish_path 5 = c9buf :=
  ⟨rfl, claim_C9_finish_path_empty_noop c9buf 5 rfl⟩

/-! ## Claim C7 -/

/-- C7: the chain 0 ≤ path_start_idx ≤ ptr ≤ max_size holds after
construction and is preserved by every successful store, by finish_path,
and by every successful get. -/
theorem claim_C7_invariant (O A : Type) (size : ℕ) (γ lam : ℚ) (o0 : O) (a0 : A) :
    bufInv (VPGBuffer.init O A size γ lam o0 a0) ∧
    (∀ (b b2 : VPGBuffer O A) (obs : O) (act : A) (r v lp : ℚ), bufInv b →
      b.store obs act r v lp = some b2 → bufInv b2) ∧
    (∀ (b : VPGBuffer O A) (lv : ℚ), bufInv b → bufInv (b.finish_path lv)) ∧
    (∀ (b b2 : VPGBuffer O A) (μ σ : ℚ)
      (out : List O × List A × List ℚ × List ℚ × List ℚ),
      b.get μ σ = some (out, b2) → bufInv b2) := by
  refine ⟨⟨Nat.zero_le _, Nat.le_refl _, Nat.zero_le _⟩, ?_, ?_, ?_⟩
  · intro b b2 obs act r v lp hb hs
    unfold VPGBuffer.store at hs
    split at hs
    next hlt =>
      simp only [Option.some.injEq] at hs
      subst hs
      exact ⟨Nat.zero_le _, Nat.le_succ_of_le hb.2.1, hlt⟩
    next => cases hs
  · intro b lv hb
    exact ⟨Nat.zero_le _, Nat.le_refl _, hb.2.2⟩
  · intro b b2 μ σ out hs
    unfold VPGBuffer.get at hs
    split at hs
    next =>
      simp only [Option.some.injEq, Prod.mk.injEq] at hs
      obtain ⟨-, h2⟩ := hs
      subst h2
      exact ⟨Nat.zero_le _, Nat.zero_le _, Nat.zero_le _⟩
    next => cases hs

/-- Witness for C7: the invariant at a concrete constructed buffer and its
preservation through a concrete finish_path. -/
theorem claim_C7_witness :
    bufInv (VPGBuffer.init ℚ ℚ 3 1 1 0 0) ∧
    bufInv ((VPGBuffer.init ℚ ℚ 3 1 1 0 0).finish_path 2) := by
  have h := claim_C7_invariant ℚ ℚ 3 1 1 0 0
  exact ⟨h.1, h.2.2.1 _ 2 h.1⟩

/-! ## Claims C5 and C8: buffer contracts -/

theorem store_isSome_iff {O A : Type} (b : VPGBuffer O A) (obs : O) (act : A)
    (r v lp : ℚ) :
    (b.store obs act r v lp).isSome = true ↔ b.ptr < b.max_size := by
  unfold VPGBuffer.store
  split
  next h => simpa using h
  next h => simpa using h

theorem get_isSome_iff {O A : Type} (b : VPGBuffer O A) (μ σ : ℚ) :
    (b.get μ σ).isSome = true ↔ b.ptr = b.max_size := by
  unfold VPGBuffer.get
  split
  next h => simpa using h
  next h => simpa using h

theorem store_some_fields {O A : Type} {b b2 : VPGBuffer O A} {obs : O} {act : A}
    {r v lp : ℚ} (hs : b.store obs act r v lp = some b2) :
    b2.ptr = b.ptr + 1 ∧ b2.max_size = b.max_size ∧
      b2.path_start_idx = b.path_start_idx := by
  unfold VPGBuffer.store at hs
  split at hs
  next =>
    simp only [Option.some.injEq] at hs
    subst hs
    exact ⟨rfl, rfl, rfl⟩
  next => cases hs

theorem storeN_spec {O A : Type} (obs : O) (act : A) (r v lp : ℚ) :
    ∀ (n : ℕ) (b : VPGBuffer O A), b.ptr + n ≤ b.max_size →
      ∃ b2, storeN b obs act r v lp n = some b2 ∧
        b2.ptr = b.ptr + n ∧ b2.max_size = b.max_size := by
  intro n
  induction n with
  | zero => exact fun b _ => ⟨b, rfl, rfl, rfl⟩
  | succ n ih =>
    intro b hb
    have hlt : b.ptr < b.max_size := by omega
    cases hsome : b.store obs act r v lp with
    | none =>
      exfalso
      have hiff := store_isSome_iff b obs act r v lp
      rw [hsome] at hiff
      simp at hiff
      omega
    | some b1 =>
      obtain ⟨h1, h2, -⟩ := store_some_fields hsome
      obtain ⟨b2, hs2, hp2, hm2⟩ := ih b1 (by omega)
      refine ⟨b2, ?_, by omega, by omega⟩
      unfold storeN
      rw [hsome]
      simpa using hs2

/-- C5: store succeeds exactly when fewer than max_size transitions are
stored (ptr < max_size); get succeeds exactly when ptr = max_size; from a
fresh buffer of capacity C, C stores all succeed, the (C+1)-th store fails
with the BufferFull violation, get after the C stores succeeds, and get
after only k < C stores fails with the BufferNotFull violation. -/
theorem claim_C5_store_get_contract (O A : Type) (C : ℕ) (γ lam : ℚ)
    (o0 obs : O) (a0 act : A) (r v lp μ σ : ℚ) :
    (∀ b : VPGBuffer O A,
      (b.store obs act r v lp).isSome = true ↔ b.ptr < b.max_size) ∧
    (∀ b : VPGBuffer O A, (b.get μ σ).isSome = true ↔ b.ptr = b.max_size) ∧
    (storeN (VPGBuffer.init O A C γ lam o0 a0) obs act r v lp C).isSome = true ∧
    ((storeN (VPGBuffer.init O A C γ lam o0 a0) obs act r v lp C).bind
      (fun bC => bC.store obs act r v lp)) = none ∧
    (((storeN (VPGBuffer.init O A C γ lam o0 a0) obs act r v lp C).bind
      (fun bC => bC.get μ σ)).isSome = true) ∧
    (∀ k, k < C →
      (storeN (VPGBuffer.init O A C γ lam o0 a0) obs act r v lp k).bind
        (fun bk => bk.get μ σ) = none) := by
  obtain ⟨bC, hsC, hpC, hmC⟩ := storeN_spec obs act r v lp C
    (VPGBuffer.init O A C γ lam o0 a0) (by show 0 + C ≤ C; omega)
  have hp : bC.ptr = C := by
    rw [hpC]; show 0 + C = C; omega
  have hm : bC.max_size = C := hmC
  refine ⟨fun b => store_isSome_iff b obs act r v lp,
    fun b => get_isSome_iff b μ σ, ?_, ?_, ?_, ?_⟩
  · rw [hsC]; rfl
  · rw [hsC]
    simp only [Option.some_bind]
    simp [VPGBuffer.store, hp, hm]
  · rw [hsC]
    simp only [Option.some_bind]
    rw [get_isSome_iff, hp, hm]
  · intro k hk
    obtain ⟨bk, hsk, hpk, hmk⟩ := storeN_spec obs act r v lp k
      (VPGBuffer.init O A C γ lam o0 a0) (by show 0 + k ≤ C; omega)
    have hpk2 : bk.ptr = k := by rw [hpk]; show 0 + k = k; omega
    have hmk2 : bk.max_size = C := hmk
    rw [hsk]
    simp only [Option.some_bind]
    simp [VPGBuffer.get, hpk2, hmk2, Nat.ne_of_lt hk]

/-- Witness for C5 at capacity 2. -/
theorem claim_C5_witness :
    ((storeN (VPGBuffer.init ℚ ℚ 2 1 1 0 0) 0 0 0 0 0 2).isSome = true) ∧
    ((storeN (VPGBuffer.init ℚ ℚ 2 1 1 0 0) 0 0 0 0 0 2).bind
      (fun bC => bC.store 0 0 0 0 0)) = none ∧
    ((storeN (VPGBuffer.init ℚ ℚ 2 1 1 0 0) 0 0 0 0 0 1).bind
      (fun bk => bk.get 0 1)) = none := by
  have h := claim_C5_store_get_contract ℚ ℚ 2 1 1 0 0 0 0 0 0 0 0 1
  exact ⟨h.2.2.1, h.2.2.2.1, h.2.2.2.2.2 1 (by omega)⟩

/-- C8: a successful get resets ptr and path_start_idx to 0 and keeps the
capacity, and the buffer is reusable: a subsequent sequence of exactly
max_size stores followed by get succeeds again. -/
theorem claim_C8_get_resets_and_reusable {O A : Type} (b b2 : VPGBuffer O A)
    (μ σ μ2 σ2 : ℚ) (out : List O × List A × List ℚ × List ℚ × List ℚ)
    (obs : O) (act : A) (r v lp : ℚ)
    (h : b.get μ σ = some (out, b2)) :
    b2.ptr = 0 ∧ b2.path_start_idx = 0 ∧ b2.max_size = b.max_size ∧
    ((storeN b2 obs act r v lp b.max_size).bind
      (fun b3 => b3.get μ2 σ2)).isSome = true := by
  unfold VPGBuffer.get at h
  split at h
  next hfull =>
    simp only [Option.some.injEq, Prod.mk.injEq] at h
    obtain ⟨-, h2⟩ := h
    have hp0 : b2.ptr = 0 := by rw [← h2]
    have hpsi0 : b2.path_start_idx = 0 := by rw [← h2]
    have hm0 : b2.max_size = b.max_size := by rw [← h2]
    refine ⟨hp0, hpsi0, hm0, ?_⟩
    obtain ⟨b3, hs3, hp3, hm3⟩ := storeN_spec obs act r v lp b.max_size b2 (by omega)
    rw [hs3]
    simp only [Option.some_bind]
    rw [get_isSome_iff]
    omega
  next => cases h

/-- Witness for C8 on a concrete full capacity-1 buffer. -/
theorem claim_C8_witness :
    c8after.ptr = 0 ∧ c8after.path_start_idx = 0 ∧
    c8after.max_size = c8buf.max_size ∧
    ((storeN c8after 0 0 0 0 0 c8buf.max_size).bind
      (fun b3 => b3.get 0 1)).isSome = true :=
  claim_C8_get_resets_and_reusable c8buf c8after 0 1 0 1 c8out 0 0 0 0 0
    (by norm_num [VPGBuffer.get, c8buf, c8out, c8after])

/-! ## Claim C2 -/

theorem sliceRead_length (buf : List ℚ) (lo hi : ℕ) (hhi : hi ≤ buf.length)
    (hlo : lo ≤ hi) : (sliceRead buf lo hi).length = hi - lo := by
  unfold sliceRead
  rw [List.length_take, List.length_drop]
  exact min_eq_left (by omega)

theorem deltas_eq_ofFn (g : ℚ) (n : ℕ) (r v : List ℚ)
    (hr : r.length = n + 1) (hv : v.length = n + 1) :
    List.zipWith (fun a vv => a + g * vv.1 - vv.2) r.dropLast
      ((v.drop 1).zip v.dropLast) =
    List.ofFn (fun i : Fin n =>
      r.getD i 0 + g * v.getD (i + 1) 0 - v.getD i 0) := by
  apply List.ext_getElem
  · simp [hr, hv]
  · intro i h1 h2
    have hi : i < n := by simpa using h2
    have hir : i < r.length := by omega
    have hiv : i < v.length := by omega
    have hiv1 : i + 1 < v.length := by omega
    simp only [List.getElem_zipWith, List.getElem_zip, List.getElem_ofFn,
      List.getElem_dropLast, List.getElem_drop,
      List.getD_eq_getElem r 0 hir, List.getD_eq_getElem v 0 hiv,
      List.getD_eq_getElem v 0 hiv1]
    simp [Nat.add_comm]

theorem claim_C2_finish_path_semantics {O A : Type} (b : VPGBuffer O A) (lv : ℚ)
    (hps : b.path_start_idx ≤ b.ptr)
    (hwr : b.ptr ≤ b.rew_buf.length) (hvr : b.ptr ≤ b.val_buf.length) :
    (b.finish_path lv).path_start_idx = b.ptr ∧
    (b.finish_path lv).ret_buf =
      b.ret_buf.take b.path_start_idx ++
        (discount_cumsum (sliceRead b.rew_buf b.path_start_idx b.ptr ++ [lv])
          b.gamma).dropLast ++
        b.ret_buf.drop b.ptr ∧
    (b.finish_path lv).adv_buf =
      b.adv_buf.take b.path_start_idx ++
        discount_cumsum
          (List.ofFn (fun i : Fin (b.ptr - b.path_start_idx) =>
            (sliceRead b.rew_buf b.path_start_idx b.ptr ++ [lv]).getD i 0 +
              b.gamma *
                (sliceRead b.val_buf b.path_start_idx b.ptr ++ [lv]).getD (i + 1) 0 -
              (sliceRead b.val_buf b.path_start_idx b.ptr ++ [lv]).getD i 0))
          (b.gamma * b.lam) ++
        b.adv_buf.drop b.ptr := by
  have hrl : (sliceRead b.rew_buf b.path_start_idx b.ptr ++ [lv]).length
      = (b.ptr - b.path_start_idx) + 1 := by
    rw [List.length_append, sliceRead_length _ _ _ hwr hps]
    simp
  have hvl : (sliceRead b.val_buf b.path_start_idx b.ptr ++ [lv]).length
      = (b.ptr - b.path_start_idx) + 1 := by
    rw [List.length_append, sliceRead_length _ _ _ hvr hps]
    simp
  simp only [VPGBuffer.finish_path]
  refine ⟨trivial, ?_, ?_⟩
  · unfold sliceAssign
    have hlen : ((discount_cumsum (sliceRead b.rew_buf b.path_start_idx b.ptr ++ [lv])
        b.gamma).dropLast).length = b.ptr - b.path_start_idx := by
      rw [List.length_dropLast, discount_cumsum_length, hrl]
      omega
    rw [hlen, Nat.add_sub_cancel' hps]
  · rw [deltas_eq_ofFn b.gamma (b.ptr - b.path_start_idx) _ _ hrl hvl]
    unfold sliceAssign
    have hlen : (discount_cumsum
        (List.ofFn (fun i : Fin (b.ptr - b.path_start_idx) =>
          (sliceRead b.rew_buf b.path_start_idx b.ptr ++ [lv]).getD i 0 +
            b.gamma *
              (sliceRead b.val_buf b.path_start_idx b.ptr ++ [lv]).getD (i + 1) 0 -
            (sliceRead b.val_buf b.path_start_idx b.ptr ++ [lv]).getD i 0))
        (b.gamma * b.lam)).length = b.ptr - b.path_start_idx := by
      rw [discount_cumsum_length, List.length_ofFn]
    rw [hlen, Nat.add_sub_cancel' hps]

theorem claim_C2_witness :
    (c2buf.finish_path 0).ret_buf = [3, 2, 1] ∧
    (c2buf.finish_path 0).path_start_idx = c2buf.ptr := by
  have h := claim_C2_finish_path_semantics c2buf 0 (by decide) (by decide) (by decide)
  refine ⟨?_, h.1⟩
  rw [h.2.1]
  norm_num [sliceRead, c2buf, discount_cumsum, lfilter1]

/-! ## Claim C4 -/

theorem c4buf_adv : c4buf.adv_buf = [0] := by
  norm_num [c4buf, c4store, VPGBuffer.init, VPGBuffer.store, VPGBuffer.finish_path,
    sliceRead, sliceAssign, discount_cumsum, lfilter1]

theorem claim_C4_division_by_zero_std :
    c4store.isSome = true ∧
    varianceOf c4buf.adv_buf = 0 ∧
    mpiStdSpec c4buf.adv_buf 0 ∧
    (c4buf.get (mean c4buf.adv_buf) 0).isSome = true := by
  have hvar : varianceOf c4buf.adv_buf = 0 := by
    rw [c4buf_adv]; norm_num [varianceOf, mean]
  refine ⟨?_, hvar, ⟨le_refl 0, by rw [hvar]; norm_num⟩, ?_⟩
  · norm_num [c4store, VPGBuffer.init, VPGBuffer.store]
  · rw [get_isSome_iff]
    norm_num [c4buf, c4store, VPGBuffer.init, VPGBuffer.store, VPGBuffer.finish_path]

/-! ## Claim C6 -/

theorem getAdv_of_full {O A : Type} (b : VPGBuffer O A) (μ σ : ℚ)
    (h : b.ptr = b.max_size) :
    getAdv b μ σ = b.adv_buf.map (fun x => (x - μ) / σ) := by
  unfold getAdv VPGBuffer.get
  rw [if_pos h]

theorem sum_map_div (l : List ℚ) (f : ℚ → ℚ) (c : ℚ) :
    (l.map (fun x => f x / c)).sum = (l.map f).sum / c := by
  induction l with
  | nil => simp
  | cons a l ih => simp [ih, add_div]

theorem sum_map_sub_const (l : List ℚ) (μ : ℚ) :
    (l.map (fun x => x - μ)).sum = l.sum - l.length * μ := by
  induction l with
  | nil => simp
  | cons a l ih =>
    simp only [List.map_cons, List.sum_cons, ih, List.length_cons]
    push_cast
    ring

theorem length_cast_ne_zero (g : List ℚ) (hg : g ≠ []) : (g.length : ℚ) ≠ 0 :=
  Nat.cast_ne_zero.mpr (fun h0 => hg (List.length_eq_zero.mp h0))

theorem mean_center (g : List ℚ) (μ σ : ℚ) (hμ : μ = mean g) (hg : g ≠ []) :
    mean (g.map (fun x => (x - μ) / σ)) = 0 := by
  have hn : (g.length : ℚ) ≠ 0 := length_cast_ne_zero g hg
  have hself : (g.length : ℚ) * (g.sum / g.length) = g.sum := by
    field_simp
  have hsum : (g.map (fun x => (x - μ) / σ)).sum = 0 := by
    rw [sum_map_div g (fun x => x - μ) σ, sum_map_sub_const g μ, hμ]
    show (g.sum - g.length * (g.sum / g.length)) / σ = 0
    rw [hself, sub_self, zero_div]
  unfold mean
  rw [List.length_map, hsum, zero_div]

theorem variance_center (g : List ℚ) (μ σ : ℚ) (hμ : μ = mean g)
    (hσ : σ ^ 2 = varianceOf g) (hvar : varianceOf g ≠ 0) (hg : g ≠ []) :
    varianceOf (g.map (fun x => (x - μ) / σ)) = 1 := by
  have hn : (g.length : ℚ) ≠ 0 := length_cast_ne_zero g hg
  have hσ0 : σ ≠ 0 := by
    intro h
    apply hvar
    rw [← hσ, h]
    ring
  unfold varianceOf
  rw [mean_center g μ σ hμ hg]
  simp only [sub_zero, List.map_map, Function.comp_def, div_pow]
  unfold mean
  rw [List.length_map, sum_map_div g (fun x => (x - μ) ^ 2) (σ ^ 2)]
  have hS : (g.map (fun x => (x - μ) ^ 2)).sum = varianceOf g * g.length := by
    rw [hμ]
    unfold varianceOf mean
    rw [List.length_map]
    field_simp
  rw [hS, ← hσ]
  field_simp

theorem claim_C6_normalized_stats {O A : Type} (ws : List (VPGBuffer O A)) (σ : ℚ)
    (hfull : ∀ w ∈ ws, w.ptr = w.max_size)
    (hσ : mpiStdSpec ((ws.map VPGBuffer.adv_buf).flatten) σ)
    (hvar : varianceOf ((ws.map VPGBuffer.adv_buf).flatten) ≠ 0) :
    mean ((ws.map (fun w =>
      getAdv w (mean ((ws.map VPGBuffer.adv_buf).flatten)) σ)).flatten) = 0 ∧
    varianceOf ((ws.map (fun w =>
      getAdv w (mean ((ws.map VPGBuffer.adv_buf).flatten)) σ)).flatten) = 1 ∧
    (∀ s : ℚ, 0 ≤ s →
      s ^ 2 = varianceOf ((ws.map (fun w =>
        getAdv w (mean ((ws.map VPGBuffer.adv_buf).flatten)) σ)).flatten) →
      s = 1) := by
  have hgne : (ws.map VPGBuffer.adv_buf).flatten ≠ [] := by
    intro h
    apply hvar
    rw [h]
    norm_num [varianceOf, mean]
  have hmaps : (ws.map (fun w =>
      getAdv w (mean ((ws.map VPGBuffer.adv_buf).flatten)) σ)).flatten =
      ((ws.map VPGBuffer.adv_buf).flatten).map
        (fun x => (x - mean ((ws.map VPGBuffer.adv_buf).flatten)) / σ) := by
    rw [List.map_flatten]
    congr 1
    rw [List.map_map]
    apply List.map_congr_left
    intro w hw
    exact getAdv_of_full w _ σ (hfull w hw)
  rw [hmaps]
  have hm := mean_center ((ws.map VPGBuffer.adv_buf).flatten)
    (mean ((ws.map VPGBuffer.adv_buf).flatten)) σ rfl hgne
  have hv := variance_center ((ws.map VPGBuffer.adv_buf).flatten)
    (mean ((ws.map VPGBuffer.adv_buf).flatten)) σ rfl hσ.2 hvar hgne
  refine ⟨hm, hv, ?_⟩
  intro s hs0 hs2
  rw [hv] at hs2
  have h1 : (s - 1) * (s + 1) = 0 := by linear_combination hs2
  rcases mul_eq_zero.mp h1 with h | h
  · linarith
  · exfalso; linarith

theorem claim_C6_witness :
    mean (([c6buf].map (fun w =>
      getAdv w (mean (([c6buf].map VPGBuffer.adv_buf).flatten)) 1)).flatten) = 0 ∧
    varianceOf (([c6buf].map (fun w =>
      getAdv w (mean (([c6buf].map VPGBuffer.adv_buf).flatten)) 1)).flatten) = 1 := by
  have h := claim_C6_normalized_stats [c6buf] 1
    (by intro w hw; rw [List.mem_singleton] at hw; subst hw; rfl)
    (by constructor
        · norm_num
        · norm_num [c6buf, varianceOf, mean])
    (by norm_num [c6buf, varianceOf, mean])
  exact ⟨h.1, h.2.1⟩

/-! ## Claims C10 and C1: the collection loop -/

theorem loopIter_cases {O A : Type} (env : Env O A) (ac : O → A × ℚ × ℚ)
    (mel L t : ℕ) (o : O) (r : ℚ) (d : Bool) (el : ℕ) :
    loopIter env ac mel L t o r d el =
      (⟨o, (ac o).1, r, (ac o).2.2, (ac o).2.1, (env.step o (ac o).1).2.1,
        (env.step o (ac o).1).2.2,
        some (if (env.step o (ac o).1).2.2 then (env.step o (ac o).1).2.1
          else (ac o).2.2)⟩,
        (env.reset, 0, false, 0)) ∨
    loopIter env ac mel L t o r d el =
      (⟨o, (ac o).1, r, (ac o).2.2, (ac o).2.1, (env.step o (ac o).1).2.1,
        (env.step o (ac o).1).2.2, none⟩,
        ((env.step o (ac o).1).1, (env.step o (ac o).1).2.1,
          (env.step o (ac o).1).2.2, el + 1)) := by
  dsimp only [loopIter]
  split
  · left; rfl
  · right; rfl

theorem epochLoop_lagOk {O A : Type} (env : Env O A) (ac : O → A × ℚ × ℚ)
    (mel L : ℕ) :
    ∀ (n t : ℕ) (o : O) (r : ℚ) (d : Bool) (el : ℕ),
      lagOk r (epochLoop env ac mel L n t o r d el) := by
  intro n
  induction n with
  | zero =>
    intro t o r d el
    simp [epochLoop, lagOk]
  | succ n ih =>
    intro t o r d el
    rcases loopIter_cases env ac mel L t o r d el with hcase | hcase
    · simp only [epochLoop, hcase, lagOk]
      exact ⟨trivial, fun h => by simp [h], ih (t + 1) env.reset 0 false 0⟩
    · simp only [epochLoop, hcase, lagOk]
      exact ⟨trivial, ih (t + 1) (env.step o (ac o).1).1 (env.step o (ac o).1).2.1
        (env.step o (ac o).1).2.2 (el + 1)⟩

/-- C10: starting from a reset state, every store of the collection loop
records the environment reward of the previous step (0 on the first step
after every reset, since the loop state starts at reward 0), and the final
reward of a terminal path is never stored: it reaches the computation only
as the bootstrap argument of finish_path (lagOk forces the pending stored
reward to restart at 0 after every path close). -/
theorem claim_C10_reward_shift {O A : Type} (env : Env O A)
    (ac : O → A × ℚ × ℚ) (mel L : ℕ) :
    lagOk 0 (epochLoop env ac mel L L 0 env.reset 0 false 0) :=
  epochLoop_lagOk env ac mel L L 0 env.reset 0 false 0

/-- C1 (counterexample): with environment c1env every step is a true
terminal with final reward 5 (critic value 7); the loop closes a path at
every iteration and passes bootstrap 5, not 0, to finish_path although the
environment signalled a true terminal state. -/
theorem claim_C1_counterexample :
    (epochLoop c1env c1ac 1000 4 4 0 c1env.reset 0 false 0).map
      (fun g => (g.stepDone, g.finishArg)) =
      [(true, some 5), (true, some 5), (true, some 5), (true, some 5)] ∧
    (5 : ℚ) ≠ 0 := by
  constructor
  · rfl
  · norm_num

/-- C1 (amended): whenever the collection loop closes a path, the
bootstrap passed to finish_path is the fresh environment reward when the
environment signalled a true terminal state (0 only when that final reward
is 0), and the critic value estimate for the final stored observation when
the path was cut off by the step limit or the epoch boundary; when the
epoch boundary and termination coincide, termination takes priority. -/
theorem claim_C1_amended_bootstrap {O A : Type} (env : Env O A)
    (ac : O → A × ℚ × ℚ) (mel L t : ℕ) (o : O) (r : ℚ) (d : Bool) (el : ℕ)
    (lv : ℚ)
    (hclose : ((loopIter env ac mel L t o r d el).1).finishArg = some lv) :
    lv = if (env.step o (ac o).1).2.2 then (env.step o (ac o).1).2.1
      else (ac o).2.2 := by
  rcases loopIter_cases env ac mel L t o r d el with hcase | hcase <;>
    rw [hcase] at hclose
  · simpa using hclose.symm
  · simp at hclose

/-- Witness for the amended C1 on the concrete terminal environment. -/
theorem claim_C1_witness :
    (5 : ℚ) = if (c1env.step 0 (c1ac 0).1).2.2 then (c1env.step 0 (c1ac 0).1).2.1
      else (c1ac 0).2.2 :=
  claim_C1_amended_bootstrap c1env c1ac 1000 4 0 0 0 false 0 5 (by rfl)
